import Mathlib

set_option linter.unusedSectionVars false

/-!
# Shallow embedding of the 4at chat server core (`src/src/server.rs`)

Time is modelled as `Int` milliseconds (the Rust code uses `SystemTime`;
`duration_since` fails when the clock went backwards, which the code maps to an
explicit fallback duration).  Durations are `Nat` milliseconds.  The two hash
maps of the `Server` struct are modelled as association lists with unique keys.
Socket writes and shutdowns are modelled as an explicit list of `Output`
effects produced by each operation.
-/

namespace Chat

/-- `BAN_LIMIT`: 10 minutes, in milliseconds. -/
def BAN_LIMIT : Nat := 10 * 60 * 1000

/-- `MESSAGE_RATE`: 1 second, in milliseconds. -/
def MESSAGE_RATE : Nat := 1000

/-- `SLOWLORIS_LIMIT`: 200 milliseconds. -/
def SLOWLORIS_LIMIT : Nat := 200

/-- `STRIKE_LIMIT`: 10 strikes tolerated before ban. -/
def STRIKE_LIMIT : Nat := 10

/-- A socket address: IP plus port (`std::net::SocketAddr`). -/
structure Addr where
  ip : Nat
  port : Nat
deriving DecidableEq, Repr

/-- `now.duration_since(earlier).unwrap_or_else(|_| Duration::from_secs(0))`:
the elapsed time, with clock underflow mapped to zero.  Used by the ban-expiry
check in `client_connected` and the message-rate check in `new_message`. -/
def durSince (now earlier : Int) : Nat := (now - earlier).toNat

/-- `now.duration_since(connected_at).unwrap_or_else(|_| SLOWLORIS_LIMIT)`:
the elapsed time used by the slow-connect check in the tick handler, with clock
underflow mapped to `SLOWLORIS_LIMIT` (not zero). -/
def slowlorisDiff (now connectedAt : Int) : Nat :=
  if now < connectedAt then SLOWLORIS_LIMIT else (now - connectedAt).toNat

/-- The reader thread's sanitization: `buffer[0..n].iter().cloned().filter(|x| *x >= 32)`. -/
def sanitize (bytes : List Nat) : List Nat := bytes.filter (fun x => 32 ≤ x)

/-- UTF-8 byte sequences of an ASCII string; all fixed server messages are ASCII. -/
def asciiBytes (s : String) : List Nat := s.toList.map Char.toNat

/-- Validity of a byte sequence as UTF-8, as checked by `str::from_utf8`
(no overlong encodings, no surrogates, code points at most `0x10FFFF`). -/
def utf8Valid : List Nat → Bool
  | [] => true
  | b :: rest =>
    if b < 0x80 then utf8Valid rest
    else if b < 0xC2 then false
    else if b < 0xE0 then
      match rest with
      | b1 :: rest2 =>
        if 0x80 ≤ b1 ∧ b1 < 0xC0 then utf8Valid rest2 else false
      | [] => false
    else if b < 0xF0 then
      match rest with
      | b1 :: b2 :: rest2 =>
        let lo := if b = 0xE0 then 0xA0 else 0x80
        let hi := if b = 0xED then 0xA0 else 0xC0
        if lo ≤ b1 ∧ b1 < hi ∧ 0x80 ≤ b2 ∧ b2 < 0xC0 then utf8Valid rest2 else false
      | _ => false
    else if b < 0xF5 then
      match rest with
      | b1 :: b2 :: b3 :: rest2 =>
        let lo := if b = 0xF0 then 0x90 else 0x80
        let hi := if b = 0xF4 then 0x90 else 0xC0
        if lo ≤ b1 ∧ b1 < hi ∧ 0x80 ≤ b2 ∧ b2 < 0xC0 ∧ 0x80 ≤ b3 ∧ b3 < 0xC0 then
          utf8Valid rest2
        else false
      | _ => false
    else false

/-- One entry of the `clients: HashMap<SocketAddr, Client>` map (minus the
shared socket handle, whose writes are modelled as `Output` effects). -/
structure Client where
  lastMessage : Int
  connectedAt : Int
  authed : Bool
deriving DecidableEq, Repr

/-- `Sinner`: an IP's standing — a strike count or a ban timestamp. -/
inductive Sinner where
  | striked (n : Nat)
  | banned (t : Int)
deriving DecidableEq, Repr

/-- `Sinner::strike`: at `STRIKE_LIMIT` or above transition to `Banned(now)`
returning `true`; below, increment and return `false`; on an already banned
sinner return `true` without modification.  (The Rust method samples
`SystemTime::now()` itself; we pass the event's timestamp.) -/
def Sinner.strike (sn : Sinner) (now : Int) : Sinner × Bool :=
  match sn with
  | .striked x => if STRIKE_LIMIT ≤ x then (.banned now, true) else (.striked (x + 1), false)
  | .banned t => (.banned t, true)

/-- Socket-visible effects of one Broker operation, in order of occurrence. -/
inductive Output where
  /-- A full line written to the socket of `a`; the trailing `"\n"` of
  `writeln!` is included in `line`. -/
  | wrote (a : Addr) (line : List Nat)
  /-- `shutdown(Shutdown::Both)` on the socket of `a`. -/
  | shutdown (a : Addr)
  /-- The `"You are banned MF: {secs} secs left\n"` line written on a rejected
  reconnect, carrying the remaining ban time in milliseconds (the Rust code
  formats it as floating-point seconds). -/
  | banNotice (a : Addr) (remainingMs : Nat)
deriving DecidableEq, Repr

/-- `"Welcome to the Club buddy!\n"` as written by `writeln!`. -/
def welcomeLine : List Nat := asciiBytes "Welcome to the Club buddy!" ++ [10]

/-- `"Invalid token! Bruh!\n"` as written by `writeln!`. -/
def invalidTokenLine : List Nat := asciiBytes "Invalid token! Bruh!" ++ [10]

/-- `"You are banned MF\n"`: the line written to every client of a freshly
banned IP in `new_message`. -/
def bannedFanoutLine : List Nat := asciiBytes "You are banned MF" ++ [10]

/-- Lookup in an association list with decidable key equality
(models `HashMap::get`). -/
def alookup {α β : Type} [DecidableEq α] (k : α) : List (α × β) → Option β
  | [] => none
  | (k', v) :: rest => if k = k' then some v else alookup k rest

/-- Insert-or-replace in an association list (models `HashMap::insert` and
writes through `get_mut`/`entry`). -/
def aset {α β : Type} [DecidableEq α] (k : α) (v : β) : List (α × β) → List (α × β)
  | [] => [(k, v)]
  | (k', v') :: rest => if k = k' then (k, v) :: rest else (k', v') :: aset k v rest

/-- Removal from an association list (models `HashMap::remove`). -/
def aerase {α β : Type} [DecidableEq α] (k : α) : List (α × β) → List (α × β)
  | [] => []
  | (k', v') :: rest => if k = k' then rest else (k', v') :: aerase k rest

/-- The `Server` struct: the client map, the sinner map and the token
(as its UTF-8 bytes; token comparison in Rust is string equality, which is
byte-sequence equality). -/
structure Server where
  clients : List (Addr × Client)
  sinners : List (Nat × Sinner)
  token : List Nat
deriving DecidableEq, Repr

/-- `Server::from_token`. -/
def Server.fromToken (token : List Nat) : Server :=
  { clients := [], sinners := [], token := token }

/-- `sinners.entry(ip).or_insert(Sinner::Striked(0))`. -/
def orInsertSinner (ip : Nat) (sinners : List (Nat × Sinner)) : List (Nat × Sinner) :=
  match alookup ip sinners with
  | some _ => sinners
  | none => aset ip (.striked 0) sinners

/-- `Server::client_connected`: reject a still-banned IP with the ban notice
and a shutdown; reset an expired ban to `Striked(0)` and register; otherwise
just register.  A new client starts unauthenticated with
`last_message = now - 2*MESSAGE_RATE`. -/
def Server.clientConnected (s : Server) (addr : Addr) (now : Int) : Server × List Output :=
  let fresh : Client :=
    { lastMessage := now - 2 * (MESSAGE_RATE : Int), connectedAt := now, authed := false }
  match alookup addr.ip s.sinners with
  | some (.banned bannedAt) =>
    let diff := durSince now bannedAt
    if diff < BAN_LIMIT then
      (s, [.banNotice addr (BAN_LIMIT - diff), .shutdown addr])
    else
      let s1 := { s with sinners := aset addr.ip (.striked 0) s.sinners }
      ({ s1 with clients := aset addr fresh s1.clients }, [])
  | _ =>
    ({ s with clients := aset addr fresh s.clients }, [])

/-- `Server::client_disconnected`: remove the client, no strike. -/
def Server.clientDisconnected (s : Server) (addr : Addr) : Server :=
  { s with clients := aerase addr s.clients }

/-- The `self.clients.retain(...)` fan-out run when a strike inside
`new_message` reports a fresh ban: every client whose IP matches is written
`"You are banned MF\n"`, shut down, and dropped from the map. -/
def banFanout (ip : Nat) (clients : List (Addr × Client)) :
    List (Addr × Client) × List Output :=
  match clients with
  | [] => ([], [])
  | (a, c) :: rest =>
    if a.ip = ip then
      let (keep, outs) := banFanout ip rest
      (keep, .wrote a bannedFanoutLine :: .shutdown a :: outs)
    else
      let (keep, outs) := banFanout ip rest
      ((a, c) :: keep, outs)

/-- The strike-and-maybe-ban path of `new_message` (taken on a rate violation
or on invalid UTF-8): strike the or-inserted sinner of the author's IP and, if
it reports a ban, run the fan-out over the client map. -/
def strikePath (s : Server) (addr : Addr) (now : Int) : Server × List Output :=
  let sinners1 := orInsertSinner addr.ip s.sinners
  match alookup addr.ip sinners1 with
  | none => (s, [])  -- unreachable: or-insert guarantees presence
  | some sn =>
    let (sn', bannedNow) := sn.strike now
    let sinners2 := aset addr.ip sn' sinners1
    if bannedNow then
      let (clients', outs) := banFanout addr.ip s.clients
      ({ s with clients := clients', sinners := sinners2 }, outs)
    else
      ({ s with sinners := sinners2 }, [])

/-- The broadcast loop of `new_message`: write `text + "\n"` to every client
in the map that is authenticated and keyed by an address other than the
author's. -/
def broadcast (authorAddr : Addr) (text : List Nat) (clients : List (Addr × Client)) :
    List Output :=
  match clients with
  | [] => []
  | (a, c) :: rest =>
    if a ≠ authorAddr ∧ c.authed then
      .wrote a (text ++ [10]) :: broadcast authorAddr text rest
    else
      broadcast authorAddr text rest

/-- `Server::new_message` on already-sanitized bytes.  Missing author: drop.
Rate violation (`diff < MESSAGE_RATE` with underflow as zero): strike.
Invalid UTF-8: strike.  Otherwise forgive the sinner to `Striked(0)`, set
`last_message = now`, then either broadcast (authed), welcome (token match) or
reject-and-remove (token mismatch, with no strike). -/
def Server.newMessage (s : Server) (addr : Addr) (bytes : List Nat) (now : Int) :
    Server × List Output :=
  match alookup addr s.clients with
  | none => (s, [])
  | some author =>
    let sinners1 := orInsertSinner addr.ip s.sinners
    let diff := durSince now author.lastMessage
    if MESSAGE_RATE ≤ diff then
      if utf8Valid bytes then
        let sinners2 := aset addr.ip (.striked 0) sinners1
        let author' := { author with lastMessage := now }
        let clients1 := aset addr author' s.clients
        if author.authed then
          ({ s with clients := clients1, sinners := sinners2 },
           broadcast addr bytes clients1)
        else if bytes = s.token then
          let author2 := { author' with authed := true }
          ({ s with clients := aset addr author2 s.clients, sinners := sinners2 },
           [.wrote addr welcomeLine])
        else
          ({ s with clients := aerase addr clients1, sinners := sinners2 },
           [.wrote addr invalidTokenLine, .shutdown addr])
      else
        strikePath s addr now
    else
      strikePath s addr now

/-- Whether the slow-connect sweep expires a client: unauthenticated and
connected for at least `SLOWLORIS_LIMIT` (with clock underflow read as
`SLOWLORIS_LIMIT`). -/
def expired (now : Int) (c : Client) : Bool :=
  !c.authed && decide (SLOWLORIS_LIMIT ≤ slowlorisDiff now c.connectedAt)

/-- The slow-connect sweep of the server loop's timeout branch: every
unauthenticated client whose `slowlorisDiff` reaches `SLOWLORIS_LIMIT` has its
IP's sinner struck (the returned ban flag is ignored), its socket shut down,
and its entry dropped; sinner updates thread through the iteration. -/
def tickSweep (now : Int) (clients : List (Addr × Client)) (sinners : List (Nat × Sinner)) :
    List (Addr × Client) × List (Nat × Sinner) × List Output :=
  match clients with
  | [] => ([], sinners, [])
  | (a, c) :: rest =>
    if expired now c then
      let sinners1 := orInsertSinner a.ip sinners
      let sinners2 :=
        match alookup a.ip sinners1 with
        | none => sinners1  -- unreachable
        | some sn => aset a.ip (sn.strike now).1 sinners1
      let (keep, sinners3, outs) := tickSweep now rest sinners2
      (keep, sinners3, .shutdown a :: outs)
    else
      let (keep, sinners3, outs) := tickSweep now rest sinners
      ((a, c) :: keep, sinners3, outs)

/-- The tick event handler. -/
def Server.tick (s : Server) (now : Int) : Server × List Output :=
  let (clients', sinners', outs) := tickSweep now s.clients s.sinners
  ({ s with clients := clients', sinners := sinners' }, outs)

/-- Events delivered to the Broker.  `message` carries the raw bytes read from
the socket; sanitization (done in the reader thread in the Rust code) is
applied by `step`. -/
inductive Event where
  | connect (addr : Addr) (now : Int)
  | disconnect (addr : Addr)
  | message (addr : Addr) (bytes : List Nat) (now : Int)
  | tick (now : Int)
deriving DecidableEq, Repr

/-- One iteration of the server event loop. -/
def step (s : Server) : Event → Server × List Output
  | .connect addr now => s.clientConnected addr now
  | .disconnect addr => (s.clientDisconnected addr, [])
  | .message addr bytes now => s.newMessage addr (sanitize bytes) now
  | .tick now => s.tick now

/-- The state after a sequence of events. -/
def run (s : Server) (evs : List Event) : Server :=
  evs.foldl (fun s e => (step s e).1) s

/-- A state the server can be in after some sequence of events, starting from
`Server::from_token`. -/
def Reachable (tok : List Nat) (s : Server) : Prop :=
  ∃ evs, s = run (Server.fromToken tok) evs

/-- The broadcast recipient set: clients of the map that are authenticated and
keyed by an address other than the author's. -/
def recipients (authorAddr : Addr) (clients : List (Addr × Client)) : List (Addr × Client) :=
  clients.filter (fun p => decide (p.1 ≠ authorAddr) && p.2.authed)

/-- Iterated `Sinner::strike` on the same sinner record: `strikeIter sn now k`
is the sinner after `k` successive strikes (no intervening forgiveness). -/
def strikeIter (sn : Sinner) (now : Int) : Nat → Sinner
  | 0 => sn
  | k + 1 => ((strikeIter sn now k).strike now).1

/-- An event of the restricted traces of claim C10: a connect, or a message
that — when its author is registered — passes the rate check, is valid UTF-8
after sanitization, and is not the token. -/
def goodEvent (s : Server) : Event → Bool
  | .connect _ _ => true
  | .message addr bytes now =>
    match alookup addr s.clients with
    | none => true
    | some c =>
      decide (MESSAGE_RATE ≤ durSince now c.lastMessage) &&
      utf8Valid (sanitize bytes) && decide (sanitize bytes ≠ s.token)
  | .disconnect _ => false
  | .tick _ => false

/-- A trace consisting only of `goodEvent`s, checked against the states it
traverses. -/
def goodTrace (s : Server) : List Event → Bool
  | [] => true
  | e :: es => goodEvent s e && goodTrace (step s e).1 es

/-- The legitimate-client trace of claim C7: connect at `t0`, then `j`
messages carrying the token, the first at `t1` and each subsequent one exactly
`MESSAGE_RATE` later. -/
def legitTrace (addr : Addr) (tok : List Nat) (t0 t1 : Int) (j : Nat) : List Event :=
  .connect addr t0 ::
    (List.range j).map (fun i => .message addr tok (t1 + (i : Int) * (MESSAGE_RATE : Int)))

/-- The state the legitimate-client trace is expected to reach: after the
connect the client is registered unauthenticated; after `j ≥ 1` messages it is
authenticated, its `last_message` is the time of the `j`-th message, and its
IP's sinner is `Striked(0)`. -/
def legitState (addr : Addr) (tok : List Nat) (t0 t1 : Int) : Nat → Server
  | 0 =>
    ⟨[(addr, ⟨t0 - 2 * (MESSAGE_RATE : Int), t0, false⟩)], [], tok⟩
  | j + 1 =>
    ⟨[(addr, ⟨t1 + (j : Int) * (MESSAGE_RATE : Int), t0, true⟩)],
     [(addr.ip, .striked 0)], tok⟩

/-- Concrete token for witnesses: ASCII, fixed by sanitization. -/
def tokW : List Nat := asciiBytes "SECRET42"

/-- Witness address on IP 1. -/
def addrA : Addr := { ip := 1, port := 100 }

/-- Second witness address on IP 1. -/
def addrB : Addr := { ip := 1, port := 200 }

/-- Witness address on IP 2. -/
def addrC : Addr := { ip := 2, port := 300 }

/-- Events building a reachable state with three authenticated clients. -/
def stateWEvents : List Event :=
  [.connect addrA 0, .message addrA tokW 0,
   .connect addrB 1, .message addrB tokW 1,
   .connect addrC 2, .message addrC tokW 2]

/-- A reachable state with three authenticated clients (two on IP 1, one on
IP 2). -/
def stateW : Server := run (Server.fromToken tokW) stateWEvents

/-- Claim C3's scenario: one client authenticates from IP 1, then eleven
slow-connect rounds from IP 1 (connect, then a tick past `SLOWLORIS_LIMIT`)
drive the IP's sinner to `Banned` while the authenticated client stays in the
map. -/
def c3Trace : List Event :=
  [.connect addrA 0, .message addrA tokW 0] ++
    (List.range 11).flatMap (fun i =>
      [.connect { ip := 1, port := 1000 + i } (10000 * ((i : Int) + 1)),
       .tick (10000 * ((i : Int) + 1) + 200)])

/-- The state reached by `c3Trace`. -/
def c3State : Server := run (Server.fromToken tokW) c3Trace

/-- Claim C9's scenario: an authenticated client floods until its eleventh
rate violation turns its strike into a ban; the state right before the banning
message. -/
def c9State : Server :=
  run (Server.fromToken tokW)
    ([.connect addrA 0, .message addrA tokW 0] ++
      (List.range 10).map (fun i => .message addrA tokW ((i : Int) + 1)))

section AssocLemmas

variable {α β : Type} [DecidableEq α]

theorem alookup_mem {k : α} {v : β} :
    ∀ {l : List (α × β)}, alookup k l = some v → (k, v) ∈ l := by
  intro l
  induction l with
  | nil => intro h; simp [alookup] at h
  | cons p rest ih =>
    intro h
    obtain ⟨k', v'⟩ := p
    by_cases hk : k = k'
    · subst hk
      simp [alookup] at h
      subst h
      exact List.mem_cons_self _ _
    · simp [alookup, hk] at h
      exact List.mem_cons_of_mem _ (ih h)

theorem mem_alookup {k : α} {v : β} :
    ∀ {l : List (α × β)}, (l.map Prod.fst).Nodup → (k, v) ∈ l → alookup k l = some v := by
  intro l
  induction l with
  | nil => intro _ h; simp at h
  | cons p rest ih =>
    intro hnd hm
    obtain ⟨k', v'⟩ := p
    simp only [List.map_cons, List.nodup_cons] at hnd
    rcases List.mem_cons.mp hm with heq | hmem
    · rw [Prod.mk.injEq] at heq
      obtain ⟨rfl, rfl⟩ := heq
      simp [alookup]
    · have hk : k ≠ k' := by
        rintro rfl
        exact hnd.1 (List.mem_map.mpr ⟨(k, v), hmem, rfl⟩)
      simp only [alookup, if_neg hk]
      exact ih hnd.2 hmem

theorem alookup_aset_self {k : α} {v : β} :
    ∀ l : List (α × β), alookup k (aset k v l) = some v := by
  intro l
  induction l with
  | nil => simp [aset, alookup]
  | cons p rest ih =>
    obtain ⟨k', v'⟩ := p
    by_cases hk : k = k'
    · subst hk; simp [aset, alookup]
    · simp [aset, hk, alookup, ih]

theorem alookup_aset_ne {k k' : α} (h : k ≠ k') {v : β} :
    ∀ l : List (α × β), alookup k (aset k' v l) = alookup k l := by
  intro l
  induction l with
  | nil => simp [aset, alookup, h]
  | cons p rest ih =>
    obtain ⟨k'', v''⟩ := p
    by_cases hk : k' = k''
    · subst hk
      simp [aset, alookup, h]
    · simp [aset, hk, alookup, ih]

theorem alookup_aset_cases {k k' : α} {v w : β} {l : List (α × β)}
    (h : alookup k (aset k' v l) = some w) : (k = k' ∧ w = v) ∨ alookup k l = some w := by
  by_cases hk : k = k'
  · subst hk
    rw [alookup_aset_self] at h
    exact Or.inl ⟨rfl, (Option.some.injEq .. ▸ h).symm⟩
  · rw [alookup_aset_ne hk] at h
    exact Or.inr h

theorem alookup_aerase_ne {k k' : α} (h : k ≠ k') :
    ∀ l : List (α × β), alookup k (aerase k' l) = alookup k l := by
  intro l
  induction l with
  | nil => simp [aerase]
  | cons p rest ih =>
    obtain ⟨k'', v''⟩ := p
    by_cases hk : k' = k''
    · subst hk
      simp [aerase, alookup, h]
    · simp [aerase, hk, alookup, ih]

theorem aerase_sublist (k : α) : ∀ l : List (α × β), List.Sublist (aerase k l) l := by
  intro l
  induction l with
  | nil => simp [aerase]
  | cons p rest ih =>
    obtain ⟨k', v'⟩ := p
    by_cases hk : k = k'
    · rw [aerase, if_pos hk]
      exact List.sublist_cons_self _ _
    · rw [aerase, if_neg hk]
      exact ih.cons₂ _

theorem aerase_aset {k : α} {v : β} :
    ∀ l : List (α × β), aerase k (aset k v l) = aerase k l := by
  intro l
  induction l with
  | nil => simp [aset, aerase]
  | cons p rest ih =>
    obtain ⟨k', v'⟩ := p
    by_cases hk : k = k'
    · subst hk; simp [aset, aerase]
    · simp [aset, hk, aerase, ih]

theorem alookup_eq_none {k : α} :
    ∀ {l : List (α × β)}, k ∉ l.map Prod.fst → alookup k l = none := by
  intro l
  induction l with
  | nil => intro _; rfl
  | cons p rest ih =>
    intro hnm
    obtain ⟨k', v'⟩ := p
    simp only [List.map_cons, List.mem_cons] at hnm
    push_neg at hnm
    rw [alookup, if_neg hnm.1]
    exact ih hnm.2

theorem aset_keys {k : α} {v : β} :
    ∀ l : List (α × β), (aset k v l).map Prod.fst =
      if k ∈ l.map Prod.fst then l.map Prod.fst else l.map Prod.fst ++ [k] := by
  intro l
  induction l with
  | nil => simp [aset]
  | cons p rest ih =>
    obtain ⟨k', v'⟩ := p
    by_cases hk : k = k'
    · subst hk
      simp [aset]
    · rw [aset, if_neg hk]
      simp only [List.map_cons, ih, List.mem_cons]
      by_cases hmem : k ∈ rest.map Prod.fst
      · simp [hmem, hk]
      · simp [hmem, hk]

theorem aset_keys_nodup {k : α} {v : β} {l : List (α × β)}
    (hnd : (l.map Prod.fst).Nodup) : ((aset k v l).map Prod.fst).Nodup := by
  rw [aset_keys]
  by_cases hmem : k ∈ l.map Prod.fst
  · rwa [if_pos hmem]
  · rw [if_neg hmem]
    refine hnd.append (List.nodup_singleton k) ?_
    intro a ha hb
    rw [List.mem_singleton] at hb
    subst hb
    exact hmem ha

theorem sublist_keys_nodup {l' l : List (α × β)} (hsub : List.Sublist l' l)
    (hnd : (l.map Prod.fst).Nodup) : (l'.map Prod.fst).Nodup :=
  (hsub.map Prod.fst).nodup hnd

theorem alookup_of_sublist {k : α} {v : β} {l' l : List (α × β)} (hsub : List.Sublist l' l)
    (hnd : (l.map Prod.fst).Nodup) (h : alookup k l' = some v) : alookup k l = some v :=
  mem_alookup hnd (hsub.subset (alookup_mem h))

theorem alookup_aerase_self {k : α} :
    ∀ {l : List (α × β)}, (l.map Prod.fst).Nodup →
      alookup k (aerase k l) = (none : Option β) := by
  intro l
  induction l with
  | nil => intro _; rfl
  | cons p rest ih =>
    intro hnd
    obtain ⟨k', v'⟩ := p
    simp only [List.map_cons, List.nodup_cons] at hnd
    by_cases hk : k = k'
    · subst hk
      rw [aerase, if_pos rfl]
      exact alookup_eq_none hnd.1
    · rw [aerase, if_neg hk, alookup, if_neg hk]
      exact ih hnd.2

theorem filter_aset_of_neg {k : α} {v : β} {p : α × β → Bool}
    (hp : ∀ w, p (k, w) = false) :
    ∀ l : List (α × β), (aset k v l).filter p = l.filter p := by
  intro l
  induction l with
  | nil => simp [aset, List.filter, hp]
  | cons q rest ih =>
    obtain ⟨k', v'⟩ := q
    by_cases hk : k = k'
    · subst hk
      rw [aset, if_pos rfl, List.filter, List.filter, hp, hp]
    · rw [aset, if_neg hk]
      simp only [List.filter]
      rw [ih]

end AssocLemmas

section OpLemmas

theorem broadcast_eq_filter (addr : Addr) (text : List Nat) :
    ∀ clients : List (Addr × Client),
      broadcast addr text clients =
        (recipients addr clients).map (fun p => Output.wrote p.1 (text ++ [10])) := by
  intro clients
  induction clients with
  | nil => rfl
  | cons p rest ih =>
    obtain ⟨a, c⟩ := p
    by_cases hcond : a ≠ addr ∧ c.authed
    · rw [broadcast, if_pos hcond]
      have hb : (decide (a ≠ addr) && c.authed) = true := by
        simp [hcond.1, hcond.2]
      simp only [recipients, List.filter] at *
      rw [hb]
      simp only [List.map_cons]
      rw [ih]
    · rw [broadcast, if_neg hcond]
      have hb : (decide (a ≠ addr) && c.authed) = false := by
        rcases not_and_or.mp hcond with h | h
        · simp [not_not.mp (fun hh => h hh)]
        · simp [Bool.eq_false_iff.mpr h]
      simp only [recipients, List.filter] at *
      rw [hb]
      exact ih

theorem banFanout_clients (ip : Nat) :
    ∀ clients : List (Addr × Client),
      (banFanout ip clients).1 = clients.filter (fun p => decide (p.1.ip ≠ ip)) := by
  intro clients
  induction clients with
  | nil => rfl
  | cons p rest ih =>
    obtain ⟨a, c⟩ := p
    by_cases hip : a.ip = ip
    · rw [banFanout, if_pos hip]
      have : (decide (a.ip ≠ ip)) = false := by simp [hip]
      simp only [List.filter, this]
      exact ih
    · rw [banFanout, if_neg hip]
      have : (decide (a.ip ≠ ip)) = true := by simp [hip]
      simp only [List.filter, this]
      simp only [List.cons.injEq]
      exact ⟨trivial, ih⟩

theorem banFanout_outputs (ip : Nat) :
    ∀ clients : List (Addr × Client),
      (banFanout ip clients).2 =
        (clients.filter (fun p => decide (p.1.ip = ip))).flatMap
          (fun p => [Output.wrote p.1 bannedFanoutLine, Output.shutdown p.1]) := by
  intro clients
  induction clients with
  | nil => rfl
  | cons p rest ih =>
    obtain ⟨a, c⟩ := p
    by_cases hip : a.ip = ip
    · rw [banFanout, if_pos hip]
      have : (decide (a.ip = ip)) = true := by simp [hip]
      simp only [List.filter, this, List.flatMap_cons]
      simp only [List.cons_append, List.nil_append, List.cons.injEq]
      exact ⟨trivial, trivial, ih⟩
    · rw [banFanout, if_neg hip]
      have : (decide (a.ip = ip)) = false := by simp [hip]
      simp only [List.filter, this]
      exact ih

theorem tickSweep_clients (now : Int) :
    ∀ (clients : List (Addr × Client)) (sinners : List (Nat × Sinner)),
      (tickSweep now clients sinners).1 = clients.filter (fun p => !expired now p.2) := by
  intro clients
  induction clients with
  | nil => intro sinners; rfl
  | cons p rest ih =>
    intro sinners
    obtain ⟨a, c⟩ := p
    by_cases hexp : expired now c = true
    · rw [tickSweep, if_pos hexp]
      have : (!expired now c) = false := by simp [hexp]
      simp only [List.filter, this]
      exact ih _
    · rw [tickSweep, if_neg hexp]
      have : (!expired now c) = true := by simp [Bool.eq_false_iff.mpr hexp]
      simp only [List.filter, this, List.cons.injEq]
      exact ⟨trivial, ih _⟩

theorem tickSweep_outputs (now : Int) :
    ∀ (clients : List (Addr × Client)) (sinners : List (Nat × Sinner)),
      (tickSweep now clients sinners).2.2 =
        (clients.filter (fun p => expired now p.2)).map (fun p => Output.shutdown p.1) := by
  intro clients
  induction clients with
  | nil => intro sinners; rfl
  | cons p rest ih =>
    intro sinners
    obtain ⟨a, c⟩ := p
    by_cases hexp : expired now c = true
    · rw [tickSweep, if_pos hexp]
      simp only [List.filter, hexp, List.map_cons, List.cons.injEq]
      exact ⟨trivial, ih _⟩
    · rw [tickSweep, if_neg hexp]
      have : expired now c = false := Bool.eq_false_iff.mpr hexp
      simp only [List.filter, this]
      exact ih _

/-- The strike path either leaves the client map unchanged (no fresh ban) or
shrinks it (ban fan-out). -/
theorem strikePath_clients (s : Server) (addr : Addr) (now : Int) :
    (strikePath s addr now).1.clients = s.clients ∨
    List.Sublist (strikePath s addr now).1.clients s.clients := by
  cases halo : alookup addr.ip (orInsertSinner addr.ip s.sinners) with
  | none =>
    simp only [strikePath, halo]
    exact Or.inl (by trivial)
  | some sn =>
    cases hsk : sn.strike now with
    | mk sn' bflag =>
      cases bflag with
      | false =>
        simp only [strikePath, halo, hsk]
        exact Or.inl rfl
      | true =>
        simp only [strikePath, halo, hsk]
        refine Or.inr ?_
        rw [banFanout_clients]
        exact List.filter_sublist _

/-- Every step leaves the client map unchanged, shrinks it (a sublist), or
rewrites a single key. -/
theorem step_clients_shape (s : Server) (e : Event) :
    (step s e).1.clients = s.clients ∨
    List.Sublist (step s e).1.clients s.clients ∨
    ∃ k v, (step s e).1.clients = aset k v s.clients := by
  cases e with
  | connect addr now =>
    cases halo : alookup addr.ip s.sinners with
    | none =>
      simp only [step, Server.clientConnected, halo]
      exact Or.inr (Or.inr ⟨addr, _, rfl⟩)
    | some sn =>
      cases sn with
      | striked n =>
        simp only [step, Server.clientConnected, halo]
        exact Or.inr (Or.inr ⟨addr, _, rfl⟩)
      | banned t =>
        simp only [step, Server.clientConnected, halo]
        by_cases hb : durSince now t < BAN_LIMIT
        · rw [if_pos hb]
          exact Or.inl rfl
        · rw [if_neg hb]
          exact Or.inr (Or.inr ⟨addr, _, rfl⟩)
  | disconnect addr =>
    exact Or.inr (Or.inl (aerase_sublist addr s.clients))
  | message addr bytes now =>
    cases halo : alookup addr s.clients with
    | none =>
      simp only [step, Server.newMessage, halo]
      exact Or.inl (by trivial)
    | some author =>
      simp only [step, Server.newMessage, halo]
      by_cases hrate : MESSAGE_RATE ≤ durSince now author.lastMessage
      · rw [if_pos hrate]
        by_cases hutf : utf8Valid (sanitize bytes) = true
        · rw [if_pos hutf]
          by_cases hauth : author.authed = true
          · rw [if_pos hauth]
            exact Or.inr (Or.inr ⟨addr, _, rfl⟩)
          · rw [if_neg hauth]
            by_cases htok : sanitize bytes = s.token
            · rw [if_pos htok]
              exact Or.inr (Or.inr ⟨addr, _, rfl⟩)
            · rw [if_neg htok]
              refine Or.inr (Or.inl ?_)
              simp only
              rw [aerase_aset]
              exact aerase_sublist addr s.clients
        · rw [if_neg hutf]
          rcases strikePath_clients s addr now with h | h
          · exact Or.inl h
          · exact Or.inr (Or.inl h)
      · rw [if_neg hrate]
        rcases strikePath_clients s addr now with h | h
        · exact Or.inl h
        · exact Or.inr (Or.inl h)
  | tick now =>
    simp only [step, Server.tick]
    refine Or.inr (Or.inl ?_)
    rw [tickSweep_clients]
    exact List.filter_sublist _

/-- Key uniqueness of the client map is preserved by every step. -/
theorem step_keys_nodup {s : Server} (e : Event)
    (hnd : (s.clients.map Prod.fst).Nodup) :
    (((step s e).1.clients).map Prod.fst).Nodup := by
  rcases step_clients_shape s e with h | h | ⟨k, v, h⟩
  · rwa [h]
  · exact sublist_keys_nodup h hnd
  · rw [h]; exact aset_keys_nodup hnd

/-- Every reachable state has a client map with unique keys. -/
theorem reachable_keys_nodup {tok : List Nat} {s : Server} (h : Reachable tok s) :
    (s.clients.map Prod.fst).Nodup := by
  obtain ⟨evs, rfl⟩ := h
  suffices hgen : ∀ (s0 : Server), (s0.clients.map Prod.fst).Nodup →
      ((run s0 evs).clients.map Prod.fst).Nodup by
    exact hgen _ (by simp [Server.fromToken])
  induction evs with
  | nil => intro s0 h0; exact h0
  | cons e rest ih =>
    intro s0 h0
    exact ih _ (step_keys_nodup e h0)

end OpLemmas

section Claims

theorem strikeIter_striked (now : Int) :
    ∀ i, i ≤ STRIKE_LIMIT → strikeIter (.striked 0) now i = .striked i := by
  intro i
  induction i with
  | zero => intro _; rfl
  | succ i ih =>
    intro h
    have hlt : ¬ STRIKE_LIMIT ≤ i := by omega
    rw [strikeIter, ih (by omega), Sinner.strike]
    simp only [if_neg hlt]

/-- C4: starting from `Striked(0)`, each of the first `STRIKE_LIMIT` strikes
returns `banned=false` and leaves the sinner at `Striked(n)` with
`n ≤ STRIKE_LIMIT`; the `(STRIKE_LIMIT+1)`-th strike transitions to
`Banned(now)` returning `banned=true`; a strike on a banned sinner returns
`banned=true` without modification. -/
theorem c4_strike_progression (now : Int) :
    (∀ i, i < STRIKE_LIMIT →
      ((strikeIter (.striked 0) now i).strike now).2 = false ∧
      strikeIter (.striked 0) now (i + 1) = .striked (i + 1) ∧ i + 1 ≤ STRIKE_LIMIT) ∧
    (strikeIter (.striked 0) now STRIKE_LIMIT).strike now = (.banned now, true) ∧
    (∀ t, Sinner.strike (.banned t) now = (.banned t, true)) := by
  refine ⟨?_, ?_, ?_⟩
  · intro i hi
    have hlt : ¬ STRIKE_LIMIT ≤ i := by omega
    refine ⟨?_, ?_, by omega⟩
    · rw [strikeIter_striked now i (by omega), Sinner.strike]
      simp only [if_neg hlt]
    · rw [strikeIter, strikeIter_striked now i (by omega), Sinner.strike]
      simp only [if_neg hlt]
  · rw [strikeIter_striked now STRIKE_LIMIT (le_refl _), Sinner.strike]
    simp only [if_pos (le_refl STRIKE_LIMIT)]
  · intro t; rfl

theorem c4_strike_progression_witness :
    ((strikeIter (.striked 0) 0 3).strike 0).2 = false ∧
    strikeIter (.striked 0) 0 4 = .striked 4 ∧ 4 ≤ STRIKE_LIMIT :=
  (c4_strike_progression 0).1 3 (by decide)

theorem recipients_of_not_mem {addr : Addr} :
    ∀ {l : List (Addr × Client)}, addr ∉ l.map Prod.fst →
      recipients addr l = l.filter (fun p => p.2.authed) := by
  intro l
  induction l with
  | nil => intro _; rfl
  | cons p rest ih =>
    intro hnm
    obtain ⟨a, c⟩ := p
    simp only [List.map_cons, List.mem_cons] at hnm
    push_neg at hnm
    have ha : (decide (a ≠ addr) && c.authed) = c.authed := by
      have : a ≠ addr := fun h => hnm.1 h.symm
      simp [this]
    simp only [recipients, List.filter] at *
    rw [ha, ih hnm.2]

theorem recipients_length {addr : Addr} {c : Client} :
    ∀ {l : List (Addr × Client)}, (l.map Prod.fst).Nodup → (addr, c) ∈ l →
      c.authed = true →
      (recipients addr l).length + 1 = l.countP (fun p => p.2.authed) := by
  intro l
  induction l with
  | nil => intro _ hmem _; simp at hmem
  | cons p rest ih =>
    intro hnd hmem hauth
    obtain ⟨a, v⟩ := p
    simp only [List.map_cons, List.nodup_cons] at hnd
    have hfold : List.filter (fun p => decide (p.1 ≠ addr) && p.2.authed) rest
        = recipients addr rest := rfl
    rcases List.mem_cons.mp hmem with heq | hmem'
    · rw [Prod.mk.injEq] at heq
      obtain ⟨rfl, rfl⟩ := heq
      have hcond : (decide (addr ≠ addr) && c.authed) = false := by simp
      simp only [recipients, List.filter, hcond]
      rw [hfold, recipients_of_not_mem hnd.1, ← List.countP_eq_length_filter,
        List.countP_cons_of_pos _ _ (by simpa using hauth)]
    · have ha : a ≠ addr := by
        rintro rfl
        exact hnd.1 (List.mem_map.mpr ⟨(a, c), hmem', rfl⟩)
      cases hva : v.authed with
      | true =>
        have hcond : (decide (a ≠ addr) && v.authed) = true := by simp [ha, hva]
        simp only [recipients, List.filter, hcond]
        rw [List.countP_cons_of_pos _ _ (by simpa using hva)]
        simp only [List.length_cons]
        have hih := ih hnd.2 hmem' hauth
        simp only [recipients] at hih
        omega
      | false =>
        have hcond : (decide (a ≠ addr) && v.authed) = false := by simp [hva]
        simp only [recipients, List.filter, hcond]
        rw [List.countP_cons_of_neg _ _ (by simp [hva])]
        have hih := ih hnd.2 hmem' hauth
        simp only [recipients] at hih
        exact hih

/-- C1: a rate-compliant, valid-UTF-8 message from an authenticated client of
a reachable state is broadcast, with a trailing newline, to exactly the
clients of the map that are authenticated and keyed by an address other than
the sender's: every recipient is authenticated and distinct from the sender,
and the number of copies written is the number of authenticated clients minus
one. -/
theorem c1_broadcast_exact (tok : List Nat) (s : Server) (hre : Reachable tok s)
    (addr : Addr) (c : Client) (bytes : List Nat) (now : Int)
    (hc : alookup addr s.clients = some c) (hauth : c.authed = true)
    (hrate : MESSAGE_RATE ≤ durSince now c.lastMessage)
    (hutf : utf8Valid (sanitize bytes) = true) :
    (step s (.message addr bytes now)).2
      = (recipients addr s.clients).map
          (fun p => Output.wrote p.1 (sanitize bytes ++ [10])) ∧
    (∀ a line, Output.wrote a line ∈ (step s (.message addr bytes now)).2 →
      a ≠ addr ∧ ∃ c', alookup a s.clients = some c' ∧ c'.authed = true) ∧
    ((step s (.message addr bytes now)).2).length + 1
      = s.clients.countP (fun p => p.2.authed) := by
  have hnd := reachable_keys_nodup hre
  have hout : (step s (.message addr bytes now)).2
      = (recipients addr s.clients).map
          (fun p => Output.wrote p.1 (sanitize bytes ++ [10])) := by
    simp only [step, Server.newMessage, hc]
    rw [if_pos hrate, if_pos hutf, if_pos hauth]
    simp only
    rw [broadcast_eq_filter]
    congr 1
    exact filter_aset_of_neg (fun w => by simp) s.clients
  refine ⟨hout, ?_, ?_⟩
  · intro a line hmem
    rw [hout] at hmem
    rcases List.mem_map.mp hmem with ⟨p, hp, heq⟩
    injection heq with h1 h2
    subst h1
    have hcond := List.of_mem_filter hp
    simp only [Bool.and_eq_true, decide_eq_true_eq] at hcond
    have hpmem := List.mem_of_mem_filter hp
    refine ⟨hcond.1, p.2, ?_, hcond.2⟩
    exact mem_alookup hnd (by simpa using hpmem)
  · rw [hout, List.length_map]
    exact recipients_length hnd (alookup_mem hc) hauth

theorem c1_broadcast_witness :
    (step stateW (.message addrA (asciiBytes "hi") 2000)).2
      = (recipients addrA stateW.clients).map
          (fun p => Output.wrote p.1 (sanitize (asciiBytes "hi") ++ [10])) ∧
    ((step stateW (.message addrA (asciiBytes "hi") 2000)).2).length + 1
      = stateW.clients.countP (fun p => p.2.authed) := by
  obtain ⟨h1, h2, h3⟩ := c1_broadcast_exact tokW stateW ⟨stateWEvents, rfl⟩ addrA
    ⟨0, 0, true⟩ (asciiBytes "hi") 2000 (by decide) rfl (by decide) (by decide)
  exact ⟨h1, h3⟩

/-- C2 (amended): an unauthenticated client's rate-compliant, valid-UTF-8
message that is not the token gets `"Invalid token! Bruh!\n"`, a shutdown, and
removal from the map — but no strike: the sinner for the IP is left at the
`Striked(0)` written by the forgiveness step just before the token check. -/
theorem c2_wrong_token_rejects_without_strike (s : Server) (addr : Addr) (c : Client)
    (bytes : List Nat) (now : Int)
    (hc : alookup addr s.clients = some c) (hauth : c.authed = false)
    (hrate : MESSAGE_RATE ≤ durSince now c.lastMessage)
    (hutf : utf8Valid (sanitize bytes) = true)
    (htok : sanitize bytes ≠ s.token) :
    (step s (.message addr bytes now)).2 = [.wrote addr invalidTokenLine, .shutdown addr] ∧
    (step s (.message addr bytes now)).1.clients = aerase addr s.clients ∧
    alookup addr.ip (step s (.message addr bytes now)).1.sinners = some (.striked 0) := by
  have hauth' : ¬ c.authed = true := by simp [hauth]
  simp only [step, Server.newMessage, hc]
  rw [if_pos hrate, if_pos hutf, if_neg hauth', if_neg htok]
  refine ⟨rfl, ?_, ?_⟩
  · simp only
    rw [aerase_aset]
  · simp only
    rw [alookup_aset_self]

theorem c2_wrong_token_witness :
    (step (run (Server.fromToken tokW) [.connect addrA 0])
        (.message addrA (asciiBytes "WRONG") 5)).2
      = [.wrote addrA invalidTokenLine, .shutdown addrA] ∧
    (step (run (Server.fromToken tokW) [.connect addrA 0])
        (.message addrA (asciiBytes "WRONG") 5)).1.clients
      = aerase addrA (run (Server.fromToken tokW) [.connect addrA 0]).clients ∧
    alookup addrA.ip (step (run (Server.fromToken tokW) [.connect addrA 0])
        (.message addrA (asciiBytes "WRONG") 5)).1.sinners = some (.striked 0) :=
  c2_wrong_token_rejects_without_strike (run (Server.fromToken tokW) [.connect addrA 0])
    addrA ⟨-2000, 0, false⟩ (asciiBytes "WRONG") 5
    (by decide) rfl (by decide) (by decide) (by decide)

/-- C2 counterexample: after a first wrong-token attempt from a previously
clean IP the sinner is `Striked(0)`, not the `Striked(1)` the claim states. -/
theorem c2_wrong_token_counterexample :
    alookup 1 ((step (run (Server.fromToken tokW) [.connect addrA 0])
        (.message addrA (asciiBytes "WRONG") 5)).1.sinners) = some (.striked 0) ∧
    Sinner.striked 0 ≠ Sinner.striked 1 := by decide

/-- C5 (amended): a rate-compliant message from a registered client whose
sanitized bytes are not valid UTF-8 is dropped — it is never broadcast and the
client's record (including `last_message`) is never updated — but a strike is
recorded against the client's IP: the sinner becomes the result of
`Sinner::strike`.  If the strike reports no ban, nothing is written and the
client map is unchanged (the client stays registered); if it reports a ban
(count already at `STRIKE_LIMIT`, or sinner already banned), every client of
that IP is sent `"You are banned MF\n"`, shut down, and removed. -/
theorem c5_invalid_utf8_strikes (s : Server) (addr : Addr) (c : Client)
    (bytes : List Nat) (now : Int) (sn : Sinner)
    (hc : alookup addr s.clients = some c)
    (hrate : MESSAGE_RATE ≤ durSince now c.lastMessage)
    (hutf : utf8Valid (sanitize bytes) = false)
    (hsn : alookup addr.ip (orInsertSinner addr.ip s.sinners) = some sn) :
    (∀ c', alookup addr (step s (.message addr bytes now)).1.clients = some c' →
      c' = c) ∧
    alookup addr.ip (step s (.message addr bytes now)).1.sinners
      = some (sn.strike now).1 ∧
    (if (sn.strike now).2 = true then
      (step s (.message addr bytes now)).1.clients
        = s.clients.filter (fun p => decide (p.1.ip ≠ addr.ip)) ∧
      (step s (.message addr bytes now)).2
        = (s.clients.filter (fun p => decide (p.1.ip = addr.ip))).flatMap
            (fun p => [Output.wrote p.1 bannedFanoutLine, Output.shutdown p.1])
    else
      (step s (.message addr bytes now)).1.clients = s.clients ∧
      (step s (.message addr bytes now)).2 = []) := by
  have hutf' : ¬ utf8Valid (sanitize bytes) = true := by simp [hutf]
  simp only [step, Server.newMessage, hc]
  rw [if_pos hrate, if_neg hutf']
  cases hsk : sn.strike now with
  | mk sn' bflag =>
    cases bflag with
    | false =>
      simp only [strikePath, hsn, hsk, Bool.false_eq_true, if_false]
      refine ⟨?_, alookup_aset_self _, ?_⟩
      · intro c' hc'
        rw [hc] at hc'
        injection hc' with h
        rw [h]
      · exact ⟨trivial, trivial⟩
    | true =>
      simp only [strikePath, hsn, hsk, if_true]
      have hgone : alookup addr
          (List.filter (fun p => decide (p.1.ip ≠ addr.ip)) s.clients)
          = (none : Option Client) := by
        apply alookup_eq_none
        intro hmem
        rcases List.mem_map.mp hmem with ⟨p, hp, hfst⟩
        have hcond := List.of_mem_filter hp
        simp only [decide_eq_true_eq] at hcond
        rw [hfst] at hcond
        exact hcond rfl
      refine ⟨?_, alookup_aset_self _, ?_⟩
      · intro c' hc'
        rw [banFanout_clients, hgone] at hc'
        exact absurd hc' (by simp)
      · rw [banFanout_clients, banFanout_outputs]
        exact ⟨rfl, rfl⟩

theorem c5_invalid_utf8_witness :
    alookup addrA.ip (step stateW (.message addrA [255] 2000)).1.sinners
      = some ((Sinner.striked 0).strike 2000).1 ∧
    (step stateW (.message addrA [255] 2000)).1.clients = stateW.clients ∧
    (step stateW (.message addrA [255] 2000)).2 = [] := by
  obtain ⟨h1, h2, h3⟩ := c5_invalid_utf8_strikes stateW addrA ⟨0, 0, true⟩ [255] 2000
    (.striked 0) (by decide) (by decide) (by decide) (by decide)
  rw [if_neg (by decide)] at h3
  exact ⟨h2, h3.1, h3.2⟩

/-- C5 counterexample: a registered client whose IP's sinner sits at
`Striked(10)` (the strike limit) sends the rate-compliant message `[0xFF]`
(sanitized to itself, invalid UTF-8): the sinner transitions to `Banned(2000)`
and the client is removed from the map — refuting both the claim's "no strike
is recorded against the client's IP" and "the client remains registered" at
one concrete input. -/
theorem c5_invalid_utf8_counterexample :
    MESSAGE_RATE ≤ durSince 2000 0 ∧
    utf8Valid (sanitize [255]) = false ∧
    alookup addrA c9State.clients = some ⟨0, 0, true⟩ ∧
    alookup 1 c9State.sinners = some (.striked 10) ∧
    alookup 1 ((step c9State (.message addrA [255] 2000)).1.sinners)
      = some (.banned 2000) ∧
    alookup addrA ((step c9State (.message addrA [255] 2000)).1.clients)
      = none := by decide

/-- C6 (amended): on clock underflow the ban-expiry and message-rate checks
substitute a zero elapsed time, but the slow-connect check substitutes
`SLOWLORIS_LIMIT`, so after a backwards clock jump the next tick expires and
removes every unauthenticated client instead of treating it as fresh; every
handler stays total (no crash). -/
theorem c6_clock_underflow (now earlier : Int) (h : now < earlier) :
    durSince now earlier = 0 ∧
    slowlorisDiff now earlier = SLOWLORIS_LIMIT ∧
    ∀ (s : Server) (addr : Addr) (c : Client),
      c.authed = false → now < c.connectedAt →
      (addr, c) ∉ (step s (.tick now)).1.clients := by
  refine ⟨?_, ?_, ?_⟩
  · simp only [durSince]
    omega
  · simp only [slowlorisDiff, if_pos h]
  · intro s addr c hauth hlt hmem
    simp only [step, Server.tick] at hmem
    rw [tickSweep_clients] at hmem
    have hkept := List.of_mem_filter hmem
    simp only at hkept
    have hexp : expired now c = true := by
      simp only [expired, slowlorisDiff, if_pos hlt, hauth]
      simp
    rw [hexp] at hkept
    simp at hkept

theorem c6_clock_underflow_witness :
    durSince 0 1000 = 0 ∧
    slowlorisDiff 0 1000 = SLOWLORIS_LIMIT ∧
    (addrA, (⟨-1000, 1000, false⟩ : Client)) ∉
      (step (run (Server.fromToken tokW) [.connect addrA 1000]) (.tick 0)).1.clients := by
  obtain ⟨h1, h2, h3⟩ := c6_clock_underflow 0 1000 (by decide)
  exact ⟨h1, h2, h3 _ addrA ⟨-1000, 1000, false⟩ rfl (by decide)⟩

/-- C6 counterexample: with the clock jumped backwards (tick at 0, client
connected at 1000) the slow-connect check reads the elapsed time as
`SLOWLORIS_LIMIT`, not zero: the client is removed and its IP struck, which a
zero difference (0 < SLOWLORIS_LIMIT) could not cause. -/
theorem c6_tick_underflow_counterexample :
    slowlorisDiff 0 1000 = SLOWLORIS_LIMIT ∧ SLOWLORIS_LIMIT ≠ 0 ∧
    (step (run (Server.fromToken tokW) [.connect addrA 1000]) (.tick 0)).1.clients = [] ∧
    alookup 1 ((step (run (Server.fromToken tokW) [.connect addrA 1000])
        (.tick 0)).1.sinners) = some (.striked 1) := by decide

/-- C9 (amended): when a strike during `new_message` handling reports a fresh
ban, exactly the clients whose IP matches are each sent
`"You are banned MF\n"` (not `"You are banned Sinner!\n"`) and shut down, and
exactly those entries are removed; the slow-connect tick path ignores the
strike's ban flag entirely — it removes only the expired clients themselves
and writes no ban notice to anyone. -/
theorem c9_ban_fanout (s : Server) (addr : Addr) (c : Client) (bytes : List Nat) (now : Int)
    (hc : alookup addr s.clients = some c)
    (hrate : ¬ MESSAGE_RATE ≤ durSince now c.lastMessage)
    (hsn : ∃ sn, alookup addr.ip (orInsertSinner addr.ip s.sinners) = some sn ∧
      (sn.strike now).2 = true) :
    ((step s (.message addr bytes now)).1.clients
        = s.clients.filter (fun p => decide (p.1.ip ≠ addr.ip)) ∧
      (step s (.message addr bytes now)).2
        = (s.clients.filter (fun p => decide (p.1.ip = addr.ip))).flatMap
            (fun p => [Output.wrote p.1 bannedFanoutLine, Output.shutdown p.1])) ∧
    ∀ (now' : Int) (s' : Server),
      (step s' (.tick now')).1.clients = s'.clients.filter (fun p => !expired now' p.2) ∧
      ∀ a line, Output.wrote a line ∉ (step s' (.tick now')).2 := by
  constructor
  · obtain ⟨sn, hsn, hb⟩ := hsn
    simp only [step, Server.newMessage, hc]
    rw [if_neg hrate]
    cases hsk : sn.strike now with
    | mk sn' bflag =>
      rw [hsk] at hb
      simp only at hb
      subst hb
      simp only [strikePath, hsn, hsk, if_true]
      rw [banFanout_clients, banFanout_outputs]
      exact ⟨rfl, rfl⟩
  · intro now' s'
    constructor
    · simp only [step, Server.tick]
      rw [tickSweep_clients]
    · intro a line hmem
      simp only [step, Server.tick] at hmem
      rw [tickSweep_outputs] at hmem
      rcases List.mem_map.mp hmem with ⟨p, _, heq⟩
      exact Output.noConfusion heq

theorem c9_ban_fanout_witness :
    (step c9State (.message addrA tokW 11)).1.clients
      = c9State.clients.filter (fun p => decide (p.1.ip ≠ addrA.ip)) ∧
    (step c9State (.message addrA tokW 11)).2
      = (c9State.clients.filter (fun p => decide (p.1.ip = addrA.ip))).flatMap
          (fun p => [Output.wrote p.1 bannedFanoutLine, Output.shutdown p.1]) :=
  (c9_ban_fanout c9State addrA ⟨0, 0, true⟩ tokW 11 (by decide) (by decide)
    ⟨.striked 10, by decide, by decide⟩).1

/-- C9 counterexample: the banning strike's notification line is
`"You are banned MF\n"`; the exact line `"You are banned Sinner!\n"` the claim
requires is never written. -/
theorem c9_ban_message_counterexample :
    (step c9State (.message addrA tokW 11)).2
      = [.wrote addrA bannedFanoutLine, .shutdown addrA] ∧
    Output.wrote addrA (asciiBytes "You are banned Sinner!" ++ [10])
      ∉ (step c9State (.message addrA tokW 11)).2 := by decide

theorem clientConnected_alookup_other {s : Server} {a addr : Addr} {now : Int} {c' : Client}
    (hne : a ≠ addr)
    (hc' : alookup addr (s.clientConnected a now).1.clients = some c') :
    alookup addr s.clients = some c' := by
  cases halo : alookup a.ip s.sinners with
  | none =>
    simp only [Server.clientConnected, halo] at hc'
    rwa [alookup_aset_ne (Ne.symm hne)] at hc'
  | some sn =>
    cases sn with
    | striked n =>
      simp only [Server.clientConnected, halo] at hc'
      rwa [alookup_aset_ne (Ne.symm hne)] at hc'
    | banned t =>
      simp only [Server.clientConnected, halo] at hc'
      by_cases hb : durSince now t < BAN_LIMIT
      · rwa [if_pos hb] at hc'
      · rw [if_neg hb] at hc'
        rwa [alookup_aset_ne (Ne.symm hne)] at hc'

theorem newMessage_alookup_other {s : Server} {a addr : Addr} {bytes : List Nat}
    {now : Int} {c' : Client}
    (hnd : (s.clients.map Prod.fst).Nodup) (hne : a ≠ addr)
    (hc' : alookup addr (s.newMessage a bytes now).1.clients = some c') :
    alookup addr s.clients = some c' := by
  cases halo : alookup a s.clients with
  | none =>
    simp only [Server.newMessage, halo] at hc'
    exact hc'
  | some author =>
    simp only [Server.newMessage, halo] at hc'
    by_cases hrate : MESSAGE_RATE ≤ durSince now author.lastMessage
    · rw [if_pos hrate] at hc'
      by_cases hutf : utf8Valid bytes = true
      · rw [if_pos hutf] at hc'
        by_cases hauth : author.authed = true
        · rw [if_pos hauth] at hc'
          simp only at hc'
          rwa [alookup_aset_ne (Ne.symm hne)] at hc'
        · rw [if_neg hauth] at hc'
          by_cases htok : bytes = s.token
          · rw [if_pos htok] at hc'
            simp only at hc'
            rwa [alookup_aset_ne (Ne.symm hne)] at hc'
          · rw [if_neg htok] at hc'
            simp only at hc'
            rw [aerase_aset, alookup_aerase_ne (Ne.symm hne)] at hc'
            exact hc'
      · rw [if_neg hutf] at hc'
        rcases strikePath_clients s a now with h | h
        · rwa [h] at hc'
        · exact alookup_of_sublist h hnd hc'
    · rw [if_neg hrate] at hc'
      rcases strikePath_clients s a now with h | h
      · rwa [h] at hc'
      · exact alookup_of_sublist h hnd hc'

/-- C8: across every event that concerns an existing client (its own messages,
disconnects, ticks, and any event of other connections — a connect at the same
address replaces the client and is excluded), the `last_message` field never
decreases: it is only assigned `now` when the rate check
`now − last_message ≥ MESSAGE_RATE` passed, and a clock underflow (read as a
zero elapsed time) fails that check, so no backwards assignment occurs. -/
theorem c8_last_message_monotone (tok : List Nat) (s : Server) (hre : Reachable tok s)
    (e : Event) (addr : Addr) (c c' : Client)
    (hne : ∀ t : Int, e ≠ .connect addr t)
    (hc : alookup addr s.clients = some c)
    (hc' : alookup addr (step s e).1.clients = some c') :
    c.lastMessage ≤ c'.lastMessage := by
  have hnd := reachable_keys_nodup hre
  cases e with
  | connect a t =>
    have ha : a ≠ addr := by
      rintro rfl
      exact hne t rfl
    simp only [step] at hc'
    have h2 := clientConnected_alookup_other ha hc'
    rw [hc] at h2
    injection h2 with h2
    rw [h2]
  | disconnect a =>
    simp only [step, Server.clientDisconnected] at hc'
    by_cases ha : a = addr
    · subst ha
      rw [alookup_aerase_self hnd] at hc'
      exact absurd hc' (by simp)
    · rw [alookup_aerase_ne (Ne.symm ha)] at hc'
      rw [hc] at hc'
      injection hc' with h2
      rw [h2]
  | tick t =>
    simp only [step, Server.tick] at hc'
    rw [tickSweep_clients] at hc'
    have h2 := alookup_of_sublist (List.filter_sublist _) hnd hc'
    rw [hc] at h2
    injection h2 with h2
    rw [h2]
  | message a bytes t =>
    by_cases ha : a = addr
    · subst ha
      simp only [step, Server.newMessage, hc] at hc'
      by_cases hrate : MESSAGE_RATE ≤ durSince t c.lastMessage
      · rw [if_pos hrate] at hc'
        have hle : c.lastMessage ≤ t := by
          have h1000 : (1000 : Nat) ≤ (t - c.lastMessage).toNat := by
            simpa [MESSAGE_RATE, durSince] using hrate
          omega
        by_cases hutf : utf8Valid (sanitize bytes) = true
        · rw [if_pos hutf] at hc'
          by_cases hauth : c.authed = true
          · rw [if_pos hauth] at hc'
            simp only at hc'
            rw [alookup_aset_self] at hc'
            injection hc' with h2
            rw [← h2]
            exact hle
          · rw [if_neg hauth] at hc'
            by_cases htok : sanitize bytes = s.token
            · rw [if_pos htok] at hc'
              simp only at hc'
              rw [alookup_aset_self] at hc'
              injection hc' with h2
              rw [← h2]
              exact hle
            · rw [if_neg htok] at hc'
              simp only at hc'
              rw [aerase_aset, alookup_aerase_self hnd] at hc'
              exact absurd hc' (by simp)
        · rw [if_neg hutf] at hc'
          rcases strikePath_clients s a t with h | h
          · rw [h, hc] at hc'
            injection hc' with h2
            rw [h2]
          · have h2 := alookup_of_sublist h hnd hc'
            rw [hc] at h2
            injection h2 with h2
            rw [h2]
      · rw [if_neg hrate] at hc'
        rcases strikePath_clients s a t with h | h
        · rw [h, hc] at hc'
          injection hc' with h2
          rw [h2]
        · have h2 := alookup_of_sublist h hnd hc'
          rw [hc] at h2
          injection h2 with h2
          rw [h2]
    · simp only [step] at hc'
      have h2 := newMessage_alookup_other hnd ha hc'
      rw [hc] at h2
      injection h2 with h2
      rw [h2]

theorem c8_last_message_witness :
    ((⟨0, 0, true⟩ : Client)).lastMessage
      ≤ ((⟨2000, 0, true⟩ : Client)).lastMessage :=
  c8_last_message_monotone tokW stateW ⟨stateWEvents, rfl⟩
    (.message addrA tokW 2000) addrA ⟨0, 0, true⟩ ⟨2000, 0, true⟩
    (fun t h => Event.noConfusion h) (by decide) (by decide)

theorem alookup_orInsert_cases {k ip : Nat} {sn : List (Nat × Sinner)} {w : Sinner}
    (h : alookup k (orInsertSinner ip sn) = some w) :
    w = .striked 0 ∨ alookup k sn = some w := by
  unfold orInsertSinner at h
  cases halo : alookup ip sn with
  | some v =>
    rw [halo] at h
    exact Or.inr h
  | none =>
    rw [halo] at h
    rcases alookup_aset_cases h with ⟨_, hw⟩ | h2
    · exact Or.inl hw
    · exact Or.inr h2

theorem goodStep_noban {s : Server} {e : Event}
    (hg : goodEvent s e = true)
    (hnb : ∀ ip t, alookup ip s.sinners ≠ some (.banned t)) :
    ∀ ip t, alookup ip (step s e).1.sinners ≠ some (.banned t) := by
  cases e with
  | connect a t' =>
    intro ip t hbad
    cases halo : alookup a.ip s.sinners with
    | none =>
      simp only [step, Server.clientConnected, halo] at hbad
      exact hnb ip t hbad
    | some sn =>
      cases sn with
      | striked n =>
        simp only [step, Server.clientConnected, halo] at hbad
        exact hnb ip t hbad
      | banned tb => exact hnb a.ip tb halo
  | message a bytes t' =>
    intro ip t hbad
    cases halo : alookup a s.clients with
    | none =>
      simp only [step, Server.newMessage, halo] at hbad
      exact hnb ip t hbad
    | some c =>
      simp only [goodEvent, halo, Bool.and_eq_true, decide_eq_true_eq] at hg
      obtain ⟨⟨hrate, hutf⟩, htok⟩ := hg
      simp only [step, Server.newMessage, halo] at hbad
      rw [if_pos hrate, if_pos hutf] at hbad
      have hset : alookup ip
          (aset a.ip (Sinner.striked 0) (orInsertSinner a.ip s.sinners))
          = some (.banned t) := by
        by_cases hauth : c.authed = true
        · rwa [if_pos hauth] at hbad
        · rw [if_neg hauth, if_neg htok] at hbad
          exact hbad
      rcases alookup_aset_cases hset with ⟨_, hw⟩ | h2
      · exact Sinner.noConfusion hw
      · rcases alookup_orInsert_cases h2 with hw | h3
        · exact Sinner.noConfusion hw
        · exact hnb ip t h3
  | disconnect a => simp [goodEvent] at hg
  | tick t' => simp [goodEvent] at hg

/-- C10: a rate-compliant, valid-UTF-8 message from a registered client resets
the sinner of the client's IP to `Striked(0)` and sets `last_message := now`
before the authentication check; consequently, over any trace of connects and
rate-passing wrong-token messages, no IP's sinner is ever `Banned`. -/
theorem c10_forgive_before_auth :
    (∀ (tok : List Nat) (s : Server), Reachable tok s →
      ∀ (addr : Addr) (c : Client) (bytes : List Nat) (now : Int),
        alookup addr s.clients = some c →
        MESSAGE_RATE ≤ durSince now c.lastMessage →
        utf8Valid (sanitize bytes) = true →
        alookup addr.ip (step s (.message addr bytes now)).1.sinners
          = some (.striked 0) ∧
        ∀ c', alookup addr (step s (.message addr bytes now)).1.clients = some c' →
          c'.lastMessage = now) ∧
    ∀ (tok : List Nat) (evs : List Event),
      goodTrace (Server.fromToken tok) evs = true →
      ∀ ip t, alookup ip (run (Server.fromToken tok) evs).sinners
        ≠ some (.banned t) := by
  constructor
  · intro tok s hre addr c bytes now hc hrate hutf
    have hnd := reachable_keys_nodup hre
    simp only [step, Server.newMessage, hc]
    rw [if_pos hrate, if_pos hutf]
    by_cases hauth : c.authed = true
    · rw [if_pos hauth]
      refine ⟨alookup_aset_self _, ?_⟩
      intro c' hc'
      simp only at hc'
      rw [alookup_aset_self] at hc'
      injection hc' with h
      rw [← h]
    · rw [if_neg hauth]
      by_cases htok : sanitize bytes = s.token
      · rw [if_pos htok]
        refine ⟨alookup_aset_self _, ?_⟩
        intro c' hc'
        simp only at hc'
        rw [alookup_aset_self] at hc'
        injection hc' with h
        rw [← h]
      · rw [if_neg htok]
        refine ⟨alookup_aset_self _, ?_⟩
        intro c' hc'
        simp only at hc'
        rw [aerase_aset, alookup_aerase_self hnd] at hc'
        exact absurd hc' (by simp)
  · suffices hgen : ∀ (evs : List Event) (s : Server), goodTrace s evs = true →
        (∀ ip t, alookup ip s.sinners ≠ some (.banned t)) →
        ∀ ip t, alookup ip (run s evs).sinners ≠ some (.banned t) by
      intro tok evs hg ip t
      refine hgen evs _ hg ?_ ip t
      intro ip' t' h
      simp [Server.fromToken, alookup] at h
    intro evs
    induction evs with
    | nil => intro s hg hnb; exact hnb
    | cons e rest ih =>
      intro s hg hnb
      simp only [goodTrace, Bool.and_eq_true] at hg
      exact ih _ hg.2 (goodStep_noban hg.1 hnb)

theorem c10_forgive_witness :
    alookup addrA.ip (step (run (Server.fromToken tokW) [.connect addrA 0])
        (.message addrA (asciiBytes "WRONG") 5)).1.sinners = some (.striked 0) ∧
    alookup 1 (run (Server.fromToken tokW)
        [.connect addrA 0, .message addrA (asciiBytes "WRONG") 5]).sinners
      ≠ some (.banned 0) := by
  constructor
  · exact (c10_forgive_before_auth.1 tokW _ ⟨[.connect addrA 0], rfl⟩ addrA
      ⟨-2000, 0, false⟩ (asciiBytes "WRONG") 5 (by decide) (by decide) (by decide)).1
  · exact c10_forgive_before_auth.2 tokW _ (by decide) 1 0

/-- C3: evaluating the slow-connect scenario `c3Trace`: its final state has
IP 1's sinner `Banned(110200)` with the ban unexpired at that very instant,
yet the authenticated client at `addrA` (IP 1, still carrying its original
`connected_at`/`last_message`) remains in the client map.  The tick handler's
`retain` strikes and removes only the expired connection and ignores the
returned ban flag, so the ban/no-client invariant fails on this path (cf. the
`TODO: disconnect everyone from addr.ip()` comment in the source). -/
theorem c3_ban_invariant_violated :
    alookup 1 c3State.sinners = some (.banned 110200) ∧
    durSince 110200 110200 < BAN_LIMIT ∧
    addrA.ip = 1 ∧
    alookup addrA c3State.clients = some ⟨0, 0, true⟩ := by decide

theorem legitTrace_succ (addr : Addr) (tok : List Nat) (t0 t1 : Int) (j : Nat) :
    legitTrace addr tok t0 t1 (j + 1)
      = legitTrace addr tok t0 t1 j
        ++ [.message addr tok (t1 + (j : Int) * (MESSAGE_RATE : Int))] := by
  simp [legitTrace, List.range_succ]

theorem run_append (s : Server) (l1 l2 : List Event) :
    run s (l1 ++ l2) = run (run s l1) l2 :=
  List.foldl_append _ _ _ _

theorem legit_step_zero (addr : Addr) (tok : List Nat) (t0 t1 : Int)
    (hsan : sanitize tok = tok) (hutf : utf8Valid tok = true) (ht : t0 ≤ t1) :
    (step (legitState addr tok t0 t1 0)
      (.message addr tok (t1 + ((0 : Nat) : Int) * (MESSAGE_RATE : Int)))).1
      = legitState addr tok t0 t1 1 := by
  have h1 : MESSAGE_RATE ≤ durSince t1 (t0 - 2 * (MESSAGE_RATE : Int)) := by
    simp only [durSince, MESSAGE_RATE]
    omega
  simp [legitState, step, Server.newMessage, hsan, hutf, h1, alookup, orInsertSinner, aset]

theorem legit_step_succ (addr : Addr) (tok : List Nat) (t0 t1 : Int) (j : Nat)
    (hsan : sanitize tok = tok) (hutf : utf8Valid tok = true) :
    (step (legitState addr tok t0 t1 (j + 1))
      (.message addr tok (t1 + ((j + 1 : Nat) : Int) * (MESSAGE_RATE : Int)))).1
      = legitState addr tok t0 t1 (j + 2) := by
  have h1 : MESSAGE_RATE ≤ durSince
      (t1 + ((j : Int) + 1) * (MESSAGE_RATE : Int))
      (t1 + (j : Int) * (MESSAGE_RATE : Int)) := by
    simp only [durSince, MESSAGE_RATE]
    omega
  simp [legitState, step, Server.newMessage, hsan, hutf, h1, alookup, orInsertSinner, aset]

theorem legit_run (addr : Addr) (tok : List Nat) (t0 t1 : Int)
    (hsan : sanitize tok = tok) (hutf : utf8Valid tok = true) (ht : t0 ≤ t1) :
    ∀ j, run (Server.fromToken tok) (legitTrace addr tok t0 t1 j)
      = legitState addr tok t0 t1 j := by
  intro j
  induction j with
  | zero =>
    simp [legitTrace, run, step, Server.clientConnected, Server.fromToken, alookup,
      aset, legitState]
  | succ j ih =>
    rw [legitTrace_succ, run_append, ih]
    cases j with
    | zero => exact legit_step_zero addr tok t0 t1 hsan hutf ht
    | succ i => exact legit_step_succ addr tok t0 t1 i hsan hutf

/-- C7: a client that connects at `t0`, sends the token at any `t1 ≥ t0`, and
then sends one message per `MESSAGE_RATE`, is after every prefix of that trace
still registered (never disconnected), authenticated from the first message on
(the first message always passes the rate check, however soon it arrives), and
its IP's sinner never exceeds `Striked(0)` (never struck). -/
theorem c7_legit_client_survives (addr : Addr) (tok : List Nat) (t0 t1 : Int)
    (hsan : sanitize tok = tok) (hutf : utf8Valid tok = true) (ht : t0 ≤ t1) (j : Nat) :
    run (Server.fromToken tok) (legitTrace addr tok t0 t1 j)
      = legitState addr tok t0 t1 j ∧
    (∃ c, alookup addr
        (run (Server.fromToken tok) (legitTrace addr tok t0 t1 j)).clients
        = some c ∧ (1 ≤ j → c.authed = true)) ∧
    ∀ st, alookup addr.ip
        (run (Server.fromToken tok) (legitTrace addr tok t0 t1 j)).sinners
        = some st → st = .striked 0 := by
  have hrun := legit_run addr tok t0 t1 hsan hutf ht j
  refine ⟨hrun, ?_, ?_⟩
  · rw [hrun]
    cases j with
    | zero =>
      refine ⟨⟨t0 - 2 * (MESSAGE_RATE : Int), t0, false⟩, ?_, ?_⟩
      · simp [legitState, alookup]
      · intro h
        exact absurd h (by omega)
    | succ i =>
      refine ⟨⟨t1 + (i : Int) * (MESSAGE_RATE : Int), t0, true⟩, ?_, fun _ => rfl⟩
      simp [legitState, alookup]
  · rw [hrun]
    intro st hst
    cases j with
    | zero => simp [legitState, alookup] at hst
    | succ i =>
      simp [legitState, alookup] at hst
      exact hst.symm

theorem c7_legit_client_witness :
    run (Server.fromToken tokW) (legitTrace addrA tokW 5 7 2)
      = legitState addrA tokW 5 7 2 :=
  (c7_legit_client_survives addrA tokW 5 7 (by decide) (by decide) (by decide) 2).1

end Claims

end Chat
